import Mathlib

/-!
Verification development for the osu-score server (`src/server.js`).

The file shallowly embeds the data model and the operations of the
`/api/search` endpoint: JSON field values with JavaScript truthiness,
`getAccessToken`, `normalizeAndFilter` (normalisation and pp/mod filtering),
the global-mode pagination loop, the sort/truncate/enrich pipeline and the
error-status mapping of the request handler.  Remote HTTP calls are modelled
by an environment record supplying each call's outcome.
-/

set_option maxHeartbeats 1000000
set_option maxRecDepth 100000

/-- A JavaScript value as it can appear in a JSON-derived field of a score
record or of the request body.  `num` is a finite JS number (modelled as ℚ —
the values exercised here stay well inside exact double range), `nan` the JS
NaN produced by failed numeric coercion.  JSON itself never yields `nan`;
it arises only as an output of `parseFloat`/`parseInt`. -/
inductive JVal where
  | num (v : ℚ)
  | nan
  | str (s : String)
  | bool (b : Bool)
  | null
  deriving DecidableEq

/-- JavaScript truthiness of a `JVal` (`0`, `NaN`, `""`, `false`, `null`/absent
are falsy). -/
def truthy : JVal → Bool
  | .num v => v ≠ 0
  | .nan => false
  | .str s => s ≠ ""
  | .bool b => b
  | .null => false

/-- Digits of a decimal prefix: the leading run of ASCII digits. -/
def takeDigits (cs : List Char) : List Char := cs.takeWhile (·.isDigit)

/-- Value of a digit run. -/
def digitsVal (cs : List Char) : ℕ := cs.foldl (fun a c => a * 10 + (c.toNat - 48)) 0

/-- Model of JS `parseFloat` on a character sequence: optional sign, then a
decimal literal `digits [. digits]` prefix (exponent notation and `Infinity`,
which the observed data never uses, are outside the modelled grammar); if no
digit is consumed the result is NaN. -/
def parseFloatChars (cs : List Char) : JVal :=
  let (neg, cs₁) :=
    match cs with
    | '-' :: r => (true, r)
    | '+' :: r => (false, r)
    | _ => (false, cs)
  let intPart := takeDigits cs₁
  let rest := cs₁.drop intPart.length
  let fracPart :=
    match rest with
    | '.' :: r => takeDigits r
    | _ => []
  if intPart = [] ∧ fracPart = [] then .nan
  else
    let mag : ℚ := (digitsVal intPart : ℚ) + (digitsVal fracPart : ℚ) / ((10 : ℚ) ^ fracPart.length)
    .num (if neg then -mag else mag)

/-- JS `parseFloat` on a string: leading whitespace is skipped. -/
def parseFloatStr (s : String) : JVal :=
  parseFloatChars (s.toList.dropWhile (·.isWhitespace))

/-- JS `parseFloat` applied to a JS value (the argument is stringified first:
a finite number round-trips exactly, `NaN`/booleans/null stringify to text the
numeric grammar rejects). -/
def parseFloatJ : JVal → JVal
  | .num v => .num v
  | .str s => parseFloatStr s
  | _ => .nan

/-- Truncation toward zero (JS `ToIntegerOrInfinity` on a finite number). -/
def jsTrunc (q : ℚ) : ℤ := if 0 ≤ q then ⌊q⌋ else ⌈q⌉

/-- Model of JS `parseInt` (radix 10) on a character sequence: optional sign
then a digit prefix; NaN when no digit is consumed. -/
def parseIntChars (cs : List Char) : JVal :=
  let (neg, cs₁) :=
    match cs with
    | '-' :: r => (true, r)
    | '+' :: r => (false, r)
    | _ => (false, cs)
  let intPart := takeDigits cs₁
  if intPart = [] then .nan
  else .num (if neg then -(digitsVal intPart : ℚ) else (digitsVal intPart : ℚ))

/-- JS `parseInt` applied to a JS value (stringified first; a finite number's
canonical decimal form truncates toward zero — the exponent-notation corner
for magnitudes ≥ 1e21 is outside the modelled range). -/
def parseIntJ : JVal → JVal
  | .num v => .num ((jsTrunc v : ℤ) : ℚ)
  | .str s => parseIntChars (s.toList.dropWhile (·.isWhitespace))
  | _ => .nan

/-- JS `<` comparison as used on already-coerced numeric operands
(`score.pp < parseFloat(min_pp)`): any comparison involving NaN is false.
The operands at every use site are outputs of the normaliser or of
`parseFloat`, hence numbers or NaN. -/
def jlt : JVal → JVal → Bool
  | .num x, .num y => x < y
  | _, _ => false

/-- JS `>` on the same operand domain. -/
def jgt (a b : JVal) : Bool := jlt b a

/-- An element of a raw `mods` array: a plain mod acronym string, an object
whose `acronym` property is a string or absent, or `undefined` (which the
acronym projection produces for non-object entries).  JSON input supplies
only the first two shapes. -/
inductive MVal where
  | str (s : String)
  | obj (acr : Option String)
  | undefinedJ
  deriving DecidableEq

/-- Property access `m.acronym` as performed by the projection
`score.mods.map(m => m.acronym)`: a string has no such property (undefined),
an object yields its acronym or undefined.  On `undefined` itself the JS
expression would throw; that case is unreachable from JSON-shaped input
(the projection only runs when the first element is an object, and its
output is never projected again — see the idempotence development). -/
def macr : MVal → MVal
  | .str _ => .undefinedJ
  | .obj (some a) => .str a
  | .obj none => .undefinedJ
  | .undefinedJ => .undefinedJ

/-- The raw `mods` field: either a JS array of elements or any non-array
value (absent, null, string, …), which the normaliser replaces by `[]`. -/
inductive ModsF where
  | arr (l : List MVal)
  | nonArray
  deriving DecidableEq

/-- Opaque remote beatmapset structure, identified by its id. -/
structure Beatmapset where
  sid : ℤ
  deriving DecidableEq

/-- Opaque remote beatmap entity: integer id plus optionally embedded
beatmapset. -/
structure Beatmap where
  id : ℤ
  beatmapset : Option Beatmapset
  deriving DecidableEq

/-- Opaque remote user entity, identified by its integer id. -/
structure OsuUser where
  id : ℤ
  deriving DecidableEq

/-- A score record as deserialised from a remote API page and mutated by
`normalizeAndFilter` and the enrichment pass.  `created_at`/`ended_at` are
ISO timestamp strings in JS; they are modelled by their epoch value (an
integer), `none` meaning absent — `Date` parsing is order-isomorphic on the
valid timestamps the API emits, and a present ISO string is always truthy. -/
structure Score where
  created_at : Option ℤ
  ended_at : Option ℤ
  mods : ModsF
  pp : JVal
  beatmap : Option Beatmap
  beatmapset : Option Beatmapset
  user : Option OsuUser
  beatmap_id : ℤ
  user_id : ℤ
  deriving DecidableEq

/-- The `created_at` fallback of the normaliser (`src/server.js:206-208`):
if `created_at` is absent and `ended_at` present, copy `ended_at`. -/
def normCreated (s : Score) : Option ℤ :=
  if s.created_at = none ∧ s.ended_at ≠ none then s.ended_at else s.created_at

/-- The mod-list step of the normaliser (`src/server.js:209-215`): a
non-array `mods` becomes `[]`; an array whose first element is an object
with a truthy `acronym` is projected element-wise to acronyms. -/
def normMods : ModsF → ModsF
  | .nonArray => .arr []
  | .arr l =>
    match l with
    | .obj (some a) :: _ => if a ≠ "" then .arr (l.map macr) else .arr l
    | _ => .arr l

/-- The pp step of the normaliser (`src/server.js:216`):
`score.pp = score.pp ? parseFloat(score.pp) : 0`. -/
def normPP (p : JVal) : JVal :=
  if truthy p then parseFloatJ p else .num 0

/-- One record's pass through the `.map` of `normalizeAndFilter`
(`src/server.js:205-217`).  The three mutations touch pairwise disjoint
fields and read only unmutated ones, so the sequential in-place update is a
simultaneous record update. -/
def normalizeScore (s : Score) : Score :=
  { s with created_at := normCreated s, mods := normMods s.mods, pp := normPP s.pp }

/-- Membership test `score.mods.includes(mod)` (strict equality against a
string matches only equal string elements). -/
def modsInclude (mf : ModsF) (m : String) : Bool :=
  match mf with
  | .arr l => l.any fun x => match x with | .str s => s = m | _ => false
  | .nonArray => false

/-- The `.filter` predicate of `normalizeAndFilter` (`src/server.js:218-226`):
a truthy `min_pp`/`max_pp` imposes a bound via `parseFloat`; a present
non-empty `mods` array requires every requested acronym. -/
def filterPred (min_pp max_pp : JVal) (reqMods : Option (List String)) (s : Score) : Bool :=
  if truthy min_pp ∧ jlt s.pp (parseFloatJ min_pp) then false
  else if truthy max_pp ∧ jgt s.pp (parseFloatJ max_pp) then false
  else
    match reqMods with
    | some ms => if 0 < ms.length then ms.all (fun m => modsInclude s.mods m) else true
    | none => true

/-- Embedding of `normalizeAndFilter` (`src/server.js:204-227`). -/
def normalizeAndFilter (scores : List Score) (min_pp max_pp : JVal)
    (reqMods : Option (List String)) : List Score :=
  (scores.map normalizeScore).filter (filterPred min_pp max_pp reqMods)

/-- The sort comparator `(a, b) => new Date(b.created_at) - new Date(a.created_at)`
(`src/server.js:143`).  An absent/invalid timestamp makes the subtraction NaN,
which ES `SortCompare` treats as `+0`. -/
def scoreCmp (a b : Score) : ℤ :=
  match a.created_at, b.created_at with
  | some ta, some tb => tb - ta
  | _, _ => 0

/-- "`a` may precede `b`" under the comparator: comparator result ≤ 0. -/
def sortLe (a b : Score) : Bool := scoreCmp a b ≤ 0

/-- Insertion of one element into a sorted-by-`sortLe` list. -/
def ordInsert (x : Score) : List Score → List Score
  | [] => [x]
  | y :: ys => if sortLe x y then x :: y :: ys else y :: ordInsert x ys

/-- Model of `scores.sort(cmp)`: a comparison sort producing a list sorted by
the comparator (ES2019 `Array.prototype.sort` is a stable comparison sort;
with the consistent comparators arising here any such sort yields this
result). -/
def jsSort : List Score → List Score
  | [] => []
  | x :: xs => ordInsert x (jsSort xs)

/-- Model of `l.slice(0, e)` (`src/server.js:145`): a non-negative end index keeps the
first `e` elements (truncating a fractional index toward zero), a negative one
counts from the end, NaN keeps nothing. -/
def jsSliceEnd (l : List Score) (e : JVal) : List Score :=
  match e with
  | .num v =>
    if 0 ≤ jsTrunc v then l.take (jsTrunc v).toNat
    else l.take ((l.length : ℤ) + jsTrunc v).toNat
  | _ => []

/-- Model of a JS Set round-trip: deduplication preserving first-occurrence order. -/
def jsSetDedup (l : List ℤ) : List ℤ :=
  l.foldl (fun acc x => if acc.contains x then acc else acc ++ [x]) []

/-- The beatmap id set of the enrichment pass (`src/server.js:151`): ids of
final records lacking a beatmap, deduplicated. -/
def beatmapRequestIds (finalScores : List Score) : List ℤ :=
  jsSetDedup ((finalScores.filter fun s => s.beatmap = none).map (·.beatmap_id))

/-- The user id set of the enrichment pass (`src/server.js:152`). -/
def userRequestIds (finalScores : List Score) : List ℤ :=
  jsSetDedup ((finalScores.filter fun s => s.user = none).map (·.user_id))

/-- The beatmap lookup requests the enrichment pass issues
(`src/server.js:154-162`): nothing when no id is needed, otherwise a single
request carrying `beatmapIds.slice(0, 50)`. -/
def beatmapRequests (finalScores : List Score) : List (List ℤ) :=
  if (beatmapRequestIds finalScores).isEmpty then []
  else [(beatmapRequestIds finalScores).take 50]

/-- The user lookup requests (`src/server.js:176-184`): same single-request,
first-50 pattern. -/
def userRequests (finalScores : List Score) : List (List ℤ) :=
  if (userRequestIds finalScores).isEmpty then []
  else [(userRequestIds finalScores).take 50]

/-- The beatmap half of the enrichment (`src/server.js:164-172`): attach the
matching fetched beatmap only when `beatmap` is absent, and its embedded
beatmapset when the record still lacks one.  `find` returning no match
leaves the field absent. -/
def enrichBeatmap (fb : List Beatmap) (s : Score) : Score :=
  if s.beatmap = none then
    match fb.find? (fun b => b.id = s.beatmap_id) with
    | some bm =>
      match bm.beatmapset with
      | some bs =>
        if s.beatmapset = none then { s with beatmap := some bm, beatmapset := some bs }
        else { s with beatmap := some bm }
      | none => { s with beatmap := some bm }
    | none => s
  else s

/-- The user half of the enrichment (`src/server.js:186-191`): attach the
matching fetched user only when `user` is absent (the unconditional
assignment of the `find` result when `user` is absent leaves the field
absent on no match). -/
def enrichUser (fu : List OsuUser) (s : Score) : Score :=
  if s.user = none then { s with user := fu.find? (fun u => u.id = s.user_id) } else s

/-- Per-record effect of the enrichment pass: the beatmap loop runs over all
final records first, then the user loop. -/
def enrichScore (fb : List Beatmap) (fu : List OsuUser) (s : Score) : Score :=
  enrichUser fu (enrichBeatmap fb s)

/-- The outcome of one remote call in the environment: `none` models a thrown
request (or an absent payload field — `data.beatmaps || []`). -/
structure EnrichOutcomes where
  bmFetch : Option (List Beatmap)
  uFetch : Option (List OsuUser)

/-- A page-fetch response of the global feed (`src/server.js:110-121`):
an object with `scores` (plus pagination fields), a bare array, a payload of
any other shape (yields an empty batch), or a thrown request. -/
inductive ApiResp where
  | obj (scores : List Score) (cursor_string : Option String) (cursorField : Bool)
  | arr (scores : List Score)
  | malformed
  | fail

/-- The batch extracted from a response (`src/server.js:115-121`). -/
def respBatch : ApiResp → List Score
  | .obj s _ _ => s
  | .arr s => s
  | .malformed => []
  | .fail => []

/-- Truthiness of the `cursor` variable (a string or null/undefined). -/
def cursTruthy : Option String → Bool
  | some s => s ≠ ""
  | none => false

/-- Why the global-mode loop stopped.  `fuelOut` is a modelling artifact: the
JS loop is unbounded, the Lean model carries fuel, and the termination
theorem shows the handler's fuel allowance is never exhausted. -/
inductive StopReason where
  | enough
  | ceiling
  | timedOut
  | emptyPage
  | noCursor
  | fetchFail
  | fuelOut
  deriving DecidableEq

/-- The environment of one `/api/search` request: outcomes of every remote
call the handler can make.  `pages i` gives the wall-clock instant at which
iteration `i` of the global loop runs its `Date.now()` check together with
that iteration's fetch outcome. -/
structure Env where
  tokenOk : Option String
  userLookup : Option ℤ
  userScores : Except String (List Score)
  pages : ℕ → ℤ × ApiResp
  startTime : ℤ
  enr : EnrichOutcomes

/-- The `/api/search` request body fields (`src/server.js:32-42`).  `type`
and `include_fails` only select the remote endpoint and its parameters; the
fetched list itself is supplied by `Env.userScores`. -/
structure Req where
  username : Option String
  min_pp : JVal
  max_pp : JVal
  mods : Option (List String)
  limit : JVal
  client_id : JVal
  client_secret : JVal
  type : Option String
  include_fails : JVal

/-- The handler's response: the JSON score list, or a status/message error. -/
inductive Resp where
  | ok (scores : List Score)
  | err (status : ℕ) (msg : String)
  deriving DecidableEq

/-- HTTP status of a response (200 for the success payload). -/
def respStatus : Resp → ℕ
  | .ok _ => 200
  | .err s _ => s

/-- The `cursor` variable after one response is handled
(`src/server.js:118`): an object payload overwrites it with its
`cursor_string` (possibly clearing it), any other payload leaves it. -/
def nextCursor : ApiResp → Option String → Option String
  | .obj _ cs _, _ => cs
  | _, c => c

/-- Truthiness of the payload's own `cursor` field, tested by the
`!scoresResponse.data.cursor` half of the break condition
(`src/server.js:130`). -/
def hasCursorF : ApiResp → Bool
  | .obj _ _ c => c
  | _ => false

/-- The global-mode pagination loop (`src/server.js:86-136`).  Guards in
source order: the `while` condition (`scores.length < targetLimit &&
fetchedCount < maxFetch`), the 25 s budget check, the fetch, the empty-batch
break, accumulation of the filtered batch, and the
`!cursor && !data.cursor` break.  Fuel only bounds the recursion depth of
the model; the termination development shows the handler's allowance is
never exhausted. -/
def globalLoop (env : Env) (min_pp max_pp : JVal) (reqMods : Option (List String))
    (targetLimit : JVal) :
    ℕ → ℕ → List Score → ℕ → Option String → List Score × StopReason
  | fuel, i, acc, fetched, cursor =>
    if ¬ jlt (.num acc.length) targetLimit then (acc, .enough)
    else if ¬ fetched < 10000 then (acc, .ceiling)
    else if 25000 < (env.pages i).1 - env.startTime then (acc, .timedOut)
    else
      match (env.pages i).2 with
      | .fail => (acc, .fetchFail)
      | r =>
        if (respBatch r).isEmpty then (acc, .emptyPage)
        else if !cursTruthy (nextCursor r cursor) && !hasCursorF r then
          (acc ++ normalizeAndFilter (respBatch r) min_pp max_pp reqMods, .noCursor)
        else
          match fuel with
          | 0 => (acc ++ normalizeAndFilter (respBatch r) min_pp max_pp reqMods, .fuelOut)
          | fuel' + 1 =>
            globalLoop env min_pp max_pp reqMods targetLimit
              fuel' (i + 1) (acc ++ normalizeAndFilter (respBatch r) min_pp max_pp reqMods)
              (fetched + (respBatch r).length) (nextCursor r cursor)

/-- Embedding of `const targetLimit = limit ? parseInt(limit) : 10` (`src/server.js:51`). -/
def effLimit (limit : JVal) : JVal :=
  if truthy limit then parseIntJ limit else .num 10

/-- Embedding of the user-mode test `username && username.trim() !== ''` (`src/server.js:53`,`139`). -/
def userModeOn : Option String → Bool
  | some s => s.trim ≠ ""
  | none => false

/-- Digit-run tests for the non-decimal integer literals of the JS Number
grammar. -/
def allHexDigits (cs : List Char) : Bool :=
  cs ≠ [] && cs.all fun c => c.isDigit || ('a' ≤ c && c ≤ 'f') || ('A' ≤ c && c ≤ 'F')

def allBinDigits (cs : List Char) : Bool :=
  cs ≠ [] && cs.all fun c => c = '0' || c = '1'

def allOctDigits (cs : List Char) : Bool :=
  cs ≠ [] && cs.all fun c => '0' ≤ c && c ≤ '7'

def allDecDigits (cs : List Char) : Bool :=
  cs ≠ [] && cs.all (·.isDigit)

/-- An optionally signed all-digit run (the exponent's digits). -/
def signedDecDigits : List Char → Bool
  | '+' :: r => allDecDigits r
  | '-' :: r => allDecDigits r
  | r => allDecDigits r

/-- An optional exponent part: empty, or `e`/`E` followed by signed digits. -/
def expPartOk : List Char → Bool
  | [] => true
  | 'e' :: r => signedDecDigits r
  | 'E' :: r => signedDecDigits r
  | _ => false

/-- An unsigned decimal literal of the JS `Number` string grammar:
`Infinity`, or `digits [. digits?] [exp]`, or `. digits [exp]`. -/
def unsignedDecOk (cs : List Char) : Bool :=
  if cs = ['I', 'n', 'f', 'i', 'n', 'i', 't', 'y'] then true
  else
    match cs.drop (takeDigits cs).length with
    | '.' :: r =>
      (takeDigits cs ≠ [] || takeDigits r ≠ []) &&
        expPartOk (r.drop (takeDigits r).length)
    | rest => takeDigits cs ≠ [] && expPartOk rest

/-- Model of `!isNaN(username)` (`src/server.js:55`): `Number(s)` applied to
a string is non-NaN exactly when, after trimming whitespace, the whole
string is empty (Number 0), a signed decimal literal with optional fraction
and exponent, a signed `Infinity`, or an unsigned `0x`/`0b`/`0o` integer
literal. -/
def strIsNumeric (s : String) : Bool :=
  match (s.toList.dropWhile (·.isWhitespace)).reverse.dropWhile (·.isWhitespace) |>.reverse with
  | [] => true
  | '0' :: 'x' :: r => allHexDigits r
  | '0' :: 'X' :: r => allHexDigits r
  | '0' :: 'b' :: r => allBinDigits r
  | '0' :: 'B' :: r => allBinDigits r
  | '0' :: 'o' :: r => allOctDigits r
  | '0' :: 'O' :: r => allOctDigits r
  | '+' :: r => unsignedDecOk r
  | '-' :: r => unsignedDecOk r
  | t => unsignedDecOk t

/-- The message thrown by a failed credential exchange (`src/server.js:26`). -/
def authFailMsg : String := "Authentication failed. Check your Client ID and Client Secret."

/-- Embedding of `error.message.includes('Authentication failed')` of the catch block. -/
def msgHasAuthFail (msg : String) : Bool :=
  decide ("Authentication failed".toList <:+: msg.toList)

/-- Status chosen by the catch block (`src/server.js:199`). -/
def catchStatus (msg : String) : ℕ :=
  if msgHasAuthFail msg then 401 else 500

/-- Embedding of the sort-then-truncate step (`src/server.js:143-145`). -/
def finalList (targetLimit : JVal) (scores : List Score) : List Score :=
  jsSliceEnd (jsSort scores) targetLimit

/-- The beatmap list the single lookup yields (`src/server.js:154-163`):
no ids needed means no request; a thrown request or an absent `beatmaps`
payload field yields `[]`. -/
def fetchedBeatmaps (env : Env) (finalScores : List Score) : List Beatmap :=
  if (beatmapRequestIds finalScores).isEmpty then [] else (env.enr.bmFetch).getD []

/-- The user list the single lookup yields (`src/server.js:176-185`). -/
def fetchedUsers (env : Env) (finalScores : List Score) : List OsuUser :=
  if (userRequestIds finalScores).isEmpty then [] else (env.enr.uFetch).getD []

/-- The sort/truncate/enrich tail of the handler (`src/server.js:143-195`):
when some final record lacks a beatmap or user, issue the (single,
first-50-ids) lookups and attach matches. -/
def finishScores (env : Env) (targetLimit : JVal) (scores : List Score) : List Score :=
  if (finalList targetLimit scores).any (fun s => s.beatmap = none) ∨
      (finalList targetLimit scores).any (fun s => s.user = none) then
    (finalList targetLimit scores).map
      (enrichScore (fetchedBeatmaps env (finalList targetLimit scores))
        (fetchedUsers env (finalList targetLimit scores)))
  else finalList targetLimit scores

/-- The `/api/search` handler (`src/server.js:30-202`): credential presence
check (400), credential exchange (throws → 401 via the catch block's message
test), user mode with username resolution (404) and a single scores fetch
(a throw reaches the catch block), or the global-mode loop (fetch errors only
break it); both modes funnel into sort/truncate/enrich and a 200 payload. -/
def handleSearch (env : Env) (req : Req) : Resp :=
  if ¬ truthy req.client_id ∨ ¬ truthy req.client_secret then
    .err 400 "Missing Client ID or Client Secret"
  else
    match env.tokenOk with
    | none => .err (catchStatus authFailMsg) authFailMsg
    | some _ =>
      if userModeOn req.username then
        if ¬ strIsNumeric (req.username.getD "") ∧ env.userLookup = none then
          .err 404 "User not found"
        else
          match env.userScores with
          | .error e => .err (catchStatus e) e
          | .ok raw =>
            .ok (finishScores env (effLimit req.limit)
              (normalizeAndFilter raw req.min_pp req.max_pp req.mods))
      else
        .ok (finishScores env (effLimit req.limit)
          (globalLoop env req.min_pp req.max_pp req.mods (effLimit req.limit)
            10000 0 [] 0 none).1)

/-- Embedding of `getAccessToken` (`src/server.js:15-28`).  The body issues
exactly one credential-exchange POST unconditionally — it reads and writes no
cached state — and returns the token or throws the fixed failure message.
`exchange` is the remote outcome; the second component counts the
exchange requests the call performs. -/
def getAccessToken (exchange : Option String) : Except String String × ℕ :=
  match exchange with
  | some tok => (.ok tok, 1)
  | none => (.error authFailMsg, 1)

/-- A plain well-formed record used to instantiate witnesses and
counterexamples. -/
def sampleScore : Score where
  created_at := some 100
  ended_at := some 100
  mods := .arr [.str "HD", .str "DT"]
  pp := .num 250
  beatmap := some ⟨1, none⟩
  beatmapset := none
  user := some ⟨2⟩
  beatmap_id := 1
  user_id := 2

lemma ite_nan_num (c : Prop) [Decidable c] (e : ℚ) :
    (∃ q, (if c then JVal.nan else JVal.num e) = JVal.num q) ∨
      (if c then JVal.nan else JVal.num e) = JVal.nan := by
  split
  · exact Or.inr rfl
  · exact Or.inl ⟨_, rfl⟩

lemma parseFloatChars_num_or_nan (cs : List Char) :
    (∃ q, parseFloatChars cs = JVal.num q) ∨ parseFloatChars cs = JVal.nan := by
  unfold parseFloatChars
  repeat' split
  all_goals exact ite_nan_num _ _

lemma parseFloatJ_num_or_nan (p : JVal) :
    (∃ q, parseFloatJ p = JVal.num q) ∨ parseFloatJ p = JVal.nan := by
  cases p <;> simp [parseFloatJ, parseFloatStr]
  · exact parseFloatChars_num_or_nan _

lemma parseFloatJ_num (v : ℚ) : parseFloatJ (.num v) = .num v := rfl

lemma normPP_num_or_nan (p : JVal) :
    (∃ q, normPP p = JVal.num q) ∨ normPP p = JVal.nan := by
  unfold normPP
  split
  · exact parseFloatJ_num_or_nan p
  · exact Or.inl ⟨0, rfl⟩

lemma normCreated_stable (s : Score) :
    normCreated (normalizeScore s) = (normalizeScore s).created_at := by
  rcases hc : s.created_at with _ | c <;> rcases he : s.ended_at with _ | e <;>
    simp [normalizeScore, normCreated, hc, he]

lemma normMods_idem (m : ModsF) : normMods (normMods m) = normMods m := by
  rcases m with l | _
  · rcases l with _ | ⟨x, xs⟩
    · rfl
    · rcases x with s | acr | _
      · rfl
      · rcases acr with _ | a
        · rfl
        · by_cases ha : a = "" <;> simp [normMods, ha, macr]
      · rfl
  · rfl

lemma truthy_num_zero : truthy (.num 0) = false := rfl

lemma truthy_null : truthy .null = false := rfl

lemma truthy_num_ne {q : ℚ} (h : q ≠ 0) : truthy (.num q) = true := by
  simp [truthy, h]

lemma normPP_eq_pos (p : JVal) (ht : truthy p = true) : normPP p = parseFloatJ p := by
  simp only [normPP, ht, if_true]

lemma normPP_eq_neg (p : JVal) (ht : truthy p ≠ true) : normPP p = .num 0 := by
  simp only [normPP, if_neg ht]

lemma normPP_stable (p : JVal) (h : ¬ (truthy p = true ∧ parseFloatJ p = JVal.nan)) :
    normPP (normPP p) = normPP p := by
  by_cases ht : truthy p = true
  · rcases parseFloatJ_num_or_nan p with ⟨q, hq⟩ | hnan
    · have h1 : normPP p = JVal.num q := by rw [normPP_eq_pos p ht, hq]
      by_cases hq0 : q = 0
      · subst hq0
        rw [h1, normPP_eq_neg _ (by simp [truthy])]
      · rw [h1, normPP_eq_pos _ (truthy_num_ne hq0), parseFloatJ_num]
    · exact absurd ⟨ht, hnan⟩ h
  · have h1 : normPP p = JVal.num 0 := normPP_eq_neg p ht
    rw [h1, normPP_eq_neg _ (by simp [truthy])]

lemma normalizeScore_pp (s : Score) : (normalizeScore s).pp = normPP s.pp := rfl

lemma normalizeScore_mods (s : Score) : (normalizeScore s).mods = normMods s.mods := rfl

lemma normalizeScore_created (s : Score) : (normalizeScore s).created_at = normCreated s := rfl

/-- C4 (counterexample).  The claim predicts that the credential operation,
invoked a second time at t = 239 s with a still-valid cached token, performs
no credential-exchange call.  In the code `getAccessToken` keeps no cache:
the second invocation performs one exchange, not zero. -/
theorem token_not_cached_cex :
    (getAccessToken (some "tokenB")).2 = 1 ∧ ¬ (getAccessToken (some "tokenB")).2 = 0 := by
  decide

/-- C4 (amended).  `getAccessToken` caches nothing: every invocation performs
exactly one credential-exchange call, and the token returned is always the
freshly exchanged one. -/
theorem getAccessToken_always_exchanges :
    (∀ ex, (getAccessToken ex).2 = 1) ∧ ∀ t, (getAccessToken (some t)).1 = .ok t := by
  constructor
  · intro ex
    cases ex <;> rfl
  · intro t
    rfl

/-- C6 (counterexample).  The normaliser is not idempotent: a record whose
`pp` is the truthy non-numeric string "abc" normalises to `pp = NaN`, and a
second application turns that NaN (falsy) into 0. -/
theorem normalize_not_idempotent_cex :
    normalizeScore (normalizeScore { sampleScore with pp := .str "abc" }) ≠
      normalizeScore { sampleScore with pp := .str "abc" } := by
  decide

/-- C6 (amended).  The normaliser is idempotent on every record whose `pp`
does not fall in the truthy-but-unparsable corner (i.e. whenever `pp` is
falsy or `parseFloat` succeeds on it — in particular on all records whose
`pp` is a number or absent, the shapes the remote API emits): the
`created_at` fallback, the mod projection and the pp coercion are then
no-ops on normalised input. -/
theorem normalize_idempotent_on_numeric_pp (s : Score)
    (h : ¬ (truthy s.pp = true ∧ parseFloatJ s.pp = JVal.nan)) :
    normalizeScore (normalizeScore s) = normalizeScore s := by
  have hm := normMods_idem s.mods
  have hp := normPP_stable s.pp h
  have hc := normCreated_stable s
  rw [normalizeScore_created] at hc
  show ({ normalizeScore s with
      created_at := normCreated (normalizeScore s),
      mods := normMods (normalizeScore s).mods,
      pp := normPP (normalizeScore s).pp } : Score) = normalizeScore s
  rw [hc, normalizeScore_mods, normalizeScore_pp, hm, hp]
  rfl

theorem normalize_idempotent_on_numeric_pp_witness :
    (¬ (truthy sampleScore.pp = true ∧ parseFloatJ sampleScore.pp = JVal.nan)) ∧
      normalizeScore (normalizeScore sampleScore) = normalizeScore sampleScore :=
  ⟨by decide, normalize_idempotent_on_numeric_pp sampleScore (by decide)⟩

/-- C7 (counterexample).  For a truthy non-numeric `pp` (here the boolean
`true`) normalisation yields NaN, not the 0 the claim states. -/
theorem normalize_pp_nan_cex :
    (normalizeScore { sampleScore with pp := .bool true }).pp = JVal.nan ∧
      ¬ (normalizeScore { sampleScore with pp := .bool true }).pp = JVal.num 0 := by
  decide

/-- C7 (amended).  Normalisation coerces `pp` to a JS number-typed value:
a falsy `pp` (absent, null, 0, NaN or empty string) becomes 0, a truthy
numeric `pp` keeps its value, and the result is always a number or NaN —
a truthy non-numeric `pp` yields NaN rather than 0. -/
theorem normalize_pp_coercion (s : Score) :
    (truthy s.pp = false → (normalizeScore s).pp = JVal.num 0) ∧
    (∀ v : ℚ, s.pp = JVal.num v → v ≠ 0 → (normalizeScore s).pp = JVal.num v) ∧
    ((∃ q, (normalizeScore s).pp = JVal.num q) ∨ (normalizeScore s).pp = JVal.nan) := by
  refine ⟨?_, ?_, ?_⟩
  · intro h
    show normPP s.pp = _
    rw [normPP_eq_neg _ (by simp [h])]
  · intro v hv hv0
    show normPP s.pp = _
    rw [hv, normPP_eq_pos _ (truthy_num_ne hv0), parseFloatJ_num]
  · exact normPP_num_or_nan s.pp

theorem normalize_pp_coercion_witness :
    (truthy JVal.null = false) ∧
      (normalizeScore { sampleScore with pp := .null }).pp = JVal.num 0 :=
  ⟨rfl, (normalize_pp_coercion { sampleScore with pp := .null }).1 rfl⟩

/-- C9.  Each falsy `min_pp` or `max_pp` (the number 0 included) is ignored
on its own: a falsy `min_pp` makes the filter behave exactly as with the
lower bound absent, whatever `max_pp` is, and likewise a falsy `max_pp`
leaves only the lower-bound and mod checks; in particular a record with
`pp = 500` passes the filter when `max_pp = 0` even under a truthy
`min_pp = 200`. -/
theorem falsy_pp_bounds_ignored :
    (∀ (s : Score) (minp maxp : JVal) (rm : Option (List String)),
        truthy minp = false →
        filterPred minp maxp rm s = filterPred .null maxp rm s) ∧
    (∀ (s : Score) (minp maxp : JVal) (rm : Option (List String)),
        truthy maxp = false →
        filterPred minp maxp rm s = filterPred minp .null rm s) ∧
    (∀ s : Score, s.pp = JVal.num 500 → filterPred (.num 200) (.num 0) none s = true) := by
  refine ⟨?_, ?_, ?_⟩
  · intro s minp maxp rm h1
    simp only [filterPred, h1]
    simp [truthy_null]
  · intro s minp maxp rm h2
    simp only [filterPred, h2]
    simp [truthy_null]
  · intro s h
    simp only [filterPred, h]
    norm_num [truthy, jlt, jgt, parseFloatJ]

theorem falsy_pp_bounds_ignored_witness :
    (truthy (JVal.num 0) = false) ∧
      ({ sampleScore with pp := JVal.num 500 } : Score).pp = JVal.num 500 ∧
      filterPred (.num 200) (.num 0) none { sampleScore with pp := JVal.num 500 } = true ∧
      filterPred (.num 200) (.num 0) none { sampleScore with pp := JVal.num 500 } =
        filterPred (.num 200) .null none { sampleScore with pp := JVal.num 500 } :=
  ⟨rfl, rfl,
    falsy_pp_bounds_ignored.2.2 { sampleScore with pp := JVal.num 500 } rfl,
    falsy_pp_bounds_ignored.2.1 { sampleScore with pp := JVal.num 500 }
      (.num 200) (.num 0) none rfl⟩

lemma enrichBeatmap_pp (fb : List Beatmap) (s : Score) : (enrichBeatmap fb s).pp = s.pp := by
  unfold enrichBeatmap
  repeat' split
  all_goals rfl

lemma enrichBeatmap_mods (fb : List Beatmap) (s : Score) :
    (enrichBeatmap fb s).mods = s.mods := by
  unfold enrichBeatmap
  repeat' split
  all_goals rfl

lemma enrichBeatmap_created (fb : List Beatmap) (s : Score) :
    (enrichBeatmap fb s).created_at = s.created_at := by
  unfold enrichBeatmap
  repeat' split
  all_goals rfl

lemma enrichBeatmap_user (fb : List Beatmap) (s : Score) :
    (enrichBeatmap fb s).user = s.user := by
  unfold enrichBeatmap
  repeat' split
  all_goals rfl

lemma enrichBeatmap_user_id (fb : List Beatmap) (s : Score) :
    (enrichBeatmap fb s).user_id = s.user_id := by
  unfold enrichBeatmap
  repeat' split
  all_goals rfl

lemma enrichBeatmap_beatmap_eq (fb : List Beatmap) (s : Score) :
    (enrichBeatmap fb s).beatmap =
      if s.beatmap = none then fb.find? (fun b => b.id = s.beatmap_id) else s.beatmap := by
  unfold enrichBeatmap
  by_cases h : s.beatmap = none
  · rw [if_pos h, if_pos h]
    rcases hf : fb.find? (fun b => decide (b.id = s.beatmap_id)) with _ | bm
    · simp [hf, h]
    · rcases hbs : bm.beatmapset with _ | bs
      · simp [hf, hbs]
      · by_cases hset : s.beatmapset = none <;> simp [hf, hbs, hset]
  · rw [if_neg h, if_neg h]

lemma enrichScore_pp (fb : List Beatmap) (fu : List OsuUser) (s : Score) :
    (enrichScore fb fu s).pp = s.pp := by
  unfold enrichScore enrichUser
  split <;> simp [enrichBeatmap_pp]

lemma enrichScore_mods (fb : List Beatmap) (fu : List OsuUser) (s : Score) :
    (enrichScore fb fu s).mods = s.mods := by
  unfold enrichScore enrichUser
  split <;> simp [enrichBeatmap_mods]

lemma enrichScore_created (fb : List Beatmap) (fu : List OsuUser) (s : Score) :
    (enrichScore fb fu s).created_at = s.created_at := by
  unfold enrichScore enrichUser
  split <;> simp [enrichBeatmap_created]

lemma enrichScore_beatmap_eq (fb : List Beatmap) (fu : List OsuUser) (s : Score) :
    (enrichScore fb fu s).beatmap =
      if s.beatmap = none then fb.find? (fun b => b.id = s.beatmap_id) else s.beatmap := by
  unfold enrichScore enrichUser
  split <;> simp [enrichBeatmap_beatmap_eq]

lemma enrichScore_user_eq (fb : List Beatmap) (fu : List OsuUser) (s : Score) :
    (enrichScore fb fu s).user =
      if s.user = none then fu.find? (fun u => u.id = s.user_id) else s.user := by
  unfold enrichScore enrichUser
  rw [enrichBeatmap_user, enrichBeatmap_user_id]
  split <;> simp [enrichBeatmap_user]

lemma enrichScore_id (fb : List Beatmap) (fu : List OsuUser) (s : Score)
    (hb : ¬ s.beatmap = none) (hu : ¬ s.user = none) : enrichScore fb fu s = s := by
  have h1 : enrichBeatmap fb s = s := by
    unfold enrichBeatmap
    simp [hb]
  unfold enrichScore enrichUser
  rw [h1]
  simp [hu]


/-- 120 final records lacking their beatmap, with the distinct beatmap ids
1..120 of the claim's scenario. -/
def scores120 : List Score :=
  (List.range 120).map fun k => { sampleScore with beatmap := none, beatmap_id := (k : ℤ) + 1 }

/-- C5 (counterexample).  With needed ids {1,…,120} the enrichment pass
issues exactly one beatmap lookup request — not the claimed 3 chunks — and
ids beyond the first 50 (here 51 and 120) are never requested. -/
theorem batch_lookup_single_chunk_cex :
    (beatmapRequests scores120).length = 1 ∧
      ¬ (beatmapRequests scores120).length = 3 ∧
      ∀ c ∈ beatmapRequests scores120, (51 : ℤ) ∉ c ∧ (120 : ℤ) ∉ c := by
  decide

lemma list_map_self {α : Type} (f : α → α) :
    ∀ L : List α, (∀ a ∈ L, f a = a) → L.map f = L
  | [], _ => rfl
  | a :: t, h => by
    have ht := list_map_self f t fun x hx => h x (List.mem_cons_of_mem a hx)
    simp [h a (List.mem_cons_self a t), ht]

/-- C5 (amended).  The id sets are deduplicated but not chunked: per entity
kind at most one request is issued, carrying only the first 50 needed ids
(`ids.slice(0, 50)`); ids beyond the first 50 are never requested.  The
(single) response is merged preserving every resolvable entity: a fetched
beatmap/user whose id matches a record lacking that field is attached. -/
theorem batch_lookup_first50_single_request (fs : List Score) :
    ((beatmapRequests fs).length ≤ 1 ∧ ∀ c ∈ beatmapRequests fs, c.length ≤ 50) ∧
    ((userRequests fs).length ≤ 1 ∧ ∀ c ∈ userRequests fs, c.length ≤ 50) ∧
    (∀ (fb : List Beatmap) (fu : List OsuUser) (s : Score) (bm : Beatmap),
        s.beatmap = none → fb.find? (fun b => b.id = s.beatmap_id) = some bm →
        (enrichScore fb fu s).beatmap = some bm) ∧
    (∀ (fb : List Beatmap) (fu : List OsuUser) (s : Score) (usr : OsuUser),
        s.user = none → fu.find? (fun u => u.id = s.user_id) = some usr →
        (enrichScore fb fu s).user = some usr) := by
  refine ⟨⟨?_, ?_⟩, ⟨?_, ?_⟩, ?_, ?_⟩
  · unfold beatmapRequests
    split <;> simp
  · intro c hc
    unfold beatmapRequests at hc
    rcases (by split at hc <;> simp_all : c = (beatmapRequestIds fs).take 50) with rfl
    exact le_trans (List.length_take_le _ _) (le_refl 50)
  · unfold userRequests
    split <;> simp
  · intro c hc
    unfold userRequests at hc
    rcases (by split at hc <;> simp_all : c = (userRequestIds fs).take 50) with rfl
    exact le_trans (List.length_take_le _ _) (le_refl 50)
  · intro fb fu s bm h1 h2
    rw [enrichScore_beatmap_eq, if_pos h1, h2]
  · intro fb fu s usr h1 h2
    rw [enrichScore_user_eq, if_pos h1, h2]

theorem batch_lookup_first50_single_request_witness :
    ((51 : ℤ) ∈ beatmapRequestIds scores120) ∧
      (∀ c ∈ beatmapRequests scores120, c.length ≤ 50) ∧
      (enrichScore [⟨7, none⟩] [] { sampleScore with beatmap := none, beatmap_id := 7 }).beatmap =
        some ⟨7, none⟩ := by
  refine ⟨by decide, (batch_lookup_first50_single_request scores120).1.2, ?_⟩
  exact (batch_lookup_first50_single_request scores120).2.2.1 [⟨7, none⟩] []
    { sampleScore with beatmap := none, beatmap_id := 7 } ⟨7, none⟩ rfl (by decide)

/-- C8.  During enrichment a populated `beatmap`/`user` field is never
overwritten — each field is written only when absent — and a record with no
matching fetched entity simply keeps the field absent (no error: the
enrichment of the final set is a total map of the per-record attach step
over the sorted, truncated list). -/
lemma finishScores_eq_map (env : Env) (tl : JVal) (scores : List Score) :
    ∃ fb fu, finishScores env tl scores = (finalList tl scores).map (enrichScore fb fu) := by
  by_cases hneed :
      ((finalList tl scores).any fun s => s.beatmap = none) = true ∨
      ((finalList tl scores).any fun s => s.user = none) = true
  · refine ⟨fetchedBeatmaps env (finalList tl scores), fetchedUsers env (finalList tl scores), ?_⟩
    unfold finishScores
    rw [if_pos hneed]
  · push_neg at hneed
    obtain ⟨hb, hu⟩ := hneed
    refine ⟨[], [], ?_⟩
    unfold finishScores
    rw [if_neg (by push_neg; exact ⟨hb, hu⟩)]
    refine (list_map_self _ _ fun s hs => ?_).symm
    have hb' : ¬ s.beatmap = none := by
      intro hno
      exact hb (List.any_eq_true.mpr ⟨s, hs, by simp [hno]⟩)
    have hu' : ¬ s.user = none := by
      intro hno
      exact hu (List.any_eq_true.mpr ⟨s, hs, by simp [hno]⟩)
    exact enrichScore_id [] [] s hb' hu'

theorem enrich_never_overwrites :
    (∀ (fb : List Beatmap) (fu : List OsuUser) (s : Score),
        (s.beatmap.isSome = true → (enrichScore fb fu s).beatmap = s.beatmap) ∧
        (s.user.isSome = true → (enrichScore fb fu s).user = s.user) ∧
        (s.beatmap = none → fb.find? (fun b => b.id = s.beatmap_id) = none →
          (enrichScore fb fu s).beatmap = none) ∧
        (s.user = none → fu.find? (fun u => u.id = s.user_id) = none →
          (enrichScore fb fu s).user = none)) ∧
    (∀ (env : Env) (tl : JVal) (scores : List Score), ∃ fb fu,
        finishScores env tl scores = (finalList tl scores).map (enrichScore fb fu)) := by
  constructor
  · intro fb fu s
    refine ⟨?_, ?_, ?_, ?_⟩
    · intro h
      have hb : ¬ s.beatmap = none := by
        intro hno
        rw [hno] at h
        exact absurd h (by simp)
      rw [enrichScore_beatmap_eq, if_neg hb]
    · intro h
      have hu : ¬ s.user = none := by
        intro hno
        rw [hno] at h
        exact absurd h (by simp)
      rw [enrichScore_user_eq, if_neg hu]
    · intro h1 h2
      rw [enrichScore_beatmap_eq, if_pos h1, h2]
    · intro h1 h2
      rw [enrichScore_user_eq, if_pos h1, h2]
  · exact finishScores_eq_map

theorem enrich_never_overwrites_witness :
    (sampleScore.beatmap.isSome = true) ∧
      (enrichScore [⟨9, none⟩] [] sampleScore).beatmap = sampleScore.beatmap ∧
      (({ sampleScore with user := none } : Score).user = none) ∧
      (enrichScore [] [] { sampleScore with user := none }).user = none :=
  ⟨rfl, ((enrich_never_overwrites.1 [⟨9, none⟩] [] sampleScore).1) rfl, rfl,
    ((enrich_never_overwrites.1 [] [] { sampleScore with user := none }).2.2.2) rfl rfl⟩

lemma jsTrunc_natCast (n : ℕ) : jsTrunc (n : ℚ) = n := by
  unfold jsTrunc
  rw [if_pos (by positivity)]
  exact_mod_cast Int.floor_natCast n

lemma finalList_num_nat (n : ℕ) (scores : List Score) :
    finalList (.num (n : ℚ)) scores = (jsSort scores).take n := by
  simp only [finalList, jsSliceEnd, jsTrunc_natCast]
  rw [if_pos (by positivity)]
  norm_num

lemma finishScores_length (env : Env) (tl : JVal) (scores : List Score) :
    (finishScores env tl scores).length = (finalList tl scores).length := by
  unfold finishScores
  split
  · rw [List.length_map]
  · rfl

lemma handleSearch_ok_shape (env : Env) (req : Req) (l : List Score)
    (h : handleSearch env req = .ok l) :
    ∃ scores, l = finishScores env (effLimit req.limit) scores := by
  unfold handleSearch at h
  split at h
  · simp at h
  · split at h
    · simp at h
    · split at h
      · split at h
        · simp at h
        · split at h
          · simp at h
          · simp only [Resp.ok.injEq] at h
            exact ⟨_, h.symm⟩
      · simp only [Resp.ok.injEq] at h
        exact ⟨_, h.symm⟩

/-- C10.  A falsy `limit` field (the number 0 included, not just an absent
limit) makes the handler use the default truncation limit 10: up to 10
records are returned, not 0. -/
theorem falsy_limit_defaults_to_ten (env : Env) (req : Req)
    (h : truthy req.limit = false) :
    effLimit req.limit = .num 10 ∧
      ∀ l, handleSearch env req = .ok l → l.length ≤ 10 := by
  have he : effLimit req.limit = .num 10 := by
    unfold effLimit
    rw [if_neg (by simp [h])]
  refine ⟨he, fun l hl => ?_⟩
  obtain ⟨scores, rfl⟩ := handleSearch_ok_shape env req l hl
  rw [finishScores_length, he]
  have h10 : finalList (.num ((10 : ℕ) : ℚ)) scores = (jsSort scores).take 10 :=
    finalList_num_nat 10 scores
  norm_num at h10
  rw [h10]
  exact le_trans (List.length_take_le _ _) (le_refl 10)

/-- A concrete global-mode request used by witnesses. -/
def witReq : Req where
  username := none
  min_pp := .num 200
  max_pp := .num 300
  mods := some ["HD", "DT"]
  limit := .num 1
  client_id := .num 1
  client_secret := .num 1
  type := none
  include_fails := .null

/-- A concrete environment used by witnesses: one matching record per page. -/
def witEnv : Env where
  tokenOk := some "t"
  userLookup := none
  userScores := .ok []
  pages := fun _ => (0, .obj [{ sampleScore with beatmap := none, user := none }] (some "c") true)
  startTime := 0
  enr := ⟨none, none⟩

theorem falsy_limit_defaults_to_ten_witness :
    (truthy ({ witReq with limit := .num 0 } : Req).limit = false) ∧
      (effLimit ({ witReq with limit := .num 0 } : Req).limit = .num 10 ∧
        ∀ l, handleSearch witEnv { witReq with limit := .num 0 } = .ok l → l.length ≤ 10) :=
  ⟨by decide, falsy_limit_defaults_to_ten witEnv { witReq with limit := .num 0 } (by decide)⟩

lemma catch_auth : catchStatus authFailMsg = 401 := by decide

lemma hs_400 (env : Env) (req : Req)
    (h : truthy req.client_id = false ∨ truthy req.client_secret = false) :
    handleSearch env req = .err 400 "Missing Client ID or Client Secret" := by
  unfold handleSearch
  rw [if_pos]
  rcases h with h | h <;> simp [h]

lemma hs_401 (env : Env) (req : Req)
    (h1 : truthy req.client_id = true) (h2 : truthy req.client_secret = true)
    (ht : env.tokenOk = none) :
    handleSearch env req = .err 401 authFailMsg := by
  unfold handleSearch
  rw [if_neg (by simp [h1, h2]), ht]
  simp [catch_auth]

lemma hs_404 (env : Env) (req : Req) (t : String)
    (h1 : truthy req.client_id = true) (h2 : truthy req.client_secret = true)
    (ht : env.tokenOk = some t) (hu : userModeOn req.username = true)
    (hn : strIsNumeric (req.username.getD "") = false) (hl : env.userLookup = none) :
    handleSearch env req = .err 404 "User not found" := by
  unfold handleSearch
  rw [if_neg (by simp [h1, h2]), ht]
  simp [hu, hn, hl]

lemma hs_user_err (env : Env) (req : Req) (t : String) (e : String)
    (h1 : truthy req.client_id = true) (h2 : truthy req.client_secret = true)
    (ht : env.tokenOk = some t) (hu : userModeOn req.username = true)
    (hres : ¬ (strIsNumeric (req.username.getD "") = false ∧ env.userLookup = none))
    (he : env.userScores = .error e) :
    handleSearch env req = .err (catchStatus e) e := by
  unfold handleSearch
  rw [if_neg (by simp [h1, h2]), ht]
  rw [if_pos hu, if_neg (by simpa using hres), he]

lemma hs_user_ok (env : Env) (req : Req) (t : String) (raw : List Score)
    (h1 : truthy req.client_id = true) (h2 : truthy req.client_secret = true)
    (ht : env.tokenOk = some t) (hu : userModeOn req.username = true)
    (hres : ¬ (strIsNumeric (req.username.getD "") = false ∧ env.userLookup = none))
    (hok : env.userScores = .ok raw) :
    handleSearch env req = .ok (finishScores env (effLimit req.limit)
      (normalizeAndFilter raw req.min_pp req.max_pp req.mods)) := by
  unfold handleSearch
  rw [if_neg (by simp [h1, h2]), ht]
  rw [if_pos hu, if_neg (by simpa using hres), hok]

lemma hs_global (env : Env) (req : Req) (t : String)
    (h1 : truthy req.client_id = true) (h2 : truthy req.client_secret = true)
    (ht : env.tokenOk = some t) (hu : userModeOn req.username = false) :
    handleSearch env req = .ok (finishScores env (effLimit req.limit)
      (globalLoop env req.min_pp req.max_pp req.mods (effLimit req.limit)
        10000 0 [] 0 none).1) := by
  unfold handleSearch
  rw [if_neg (by simp [h1, h2]), ht]
  simp [hu]

/-- C3.  The endpoint's outcome is exactly: the score sequence (status 200),
400 when `client_id` or `client_secret` is missing (falsy), 401 when the
credential exchange fails, 404 when a given non-numeric username cannot be
resolved, and 500 for any other failure (namely a thrown user-mode scores
fetch, whose axios message never contains 'Authentication failed'; global
fetch and enrichment errors are swallowed and still yield 200). -/
theorem search_status_codes (env : Env) (req : Req)
    (hclean : ∀ e, env.userScores = Except.error e → msgHasAuthFail e = false) :
    (respStatus (handleSearch env req) = 400 ↔
      (truthy req.client_id = false ∨ truthy req.client_secret = false)) ∧
    (respStatus (handleSearch env req) = 401 ↔
      (truthy req.client_id = true ∧ truthy req.client_secret = true ∧
        env.tokenOk = none)) ∧
    (respStatus (handleSearch env req) = 404 ↔
      (truthy req.client_id = true ∧ truthy req.client_secret = true ∧
        env.tokenOk ≠ none ∧ userModeOn req.username = true ∧
        strIsNumeric (req.username.getD "") = false ∧ env.userLookup = none)) ∧
    (respStatus (handleSearch env req) = 500 ↔
      (truthy req.client_id = true ∧ truthy req.client_secret = true ∧
        env.tokenOk ≠ none ∧ userModeOn req.username = true ∧
        ¬ (strIsNumeric (req.username.getD "") = false ∧ env.userLookup = none) ∧
        ∃ e, env.userScores = Except.error e)) ∧
    ((∃ l, handleSearch env req = .ok l) ↔ respStatus (handleSearch env req) = 200) := by
  by_cases h1 : truthy req.client_id = true
  · by_cases h2 : truthy req.client_secret = true
    · rcases ht : env.tokenOk with _ | t
      · rw [hs_401 env req h1 h2 ht]
        simp [respStatus, h1, h2, ht]
      · by_cases hu : userModeOn req.username = true
        · by_cases hres : strIsNumeric (req.username.getD "") = false ∧ env.userLookup = none
          · rw [hs_404 env req t h1 h2 ht hu hres.1 hres.2]
            simp [respStatus, h1, h2, ht, hu, hres.1, hres.2]
          · rcases hs : env.userScores with e | raw
            · rw [hs_user_err env req t e h1 h2 ht hu hres hs]
              have h500 : catchStatus e = 500 := by
                unfold catchStatus
                rw [hclean e hs]
                simp
              rw [h500]
              simp [respStatus, h1, h2, ht, hu, hres, hs]
            · rw [hs_user_ok env req t raw h1 h2 ht hu hres hs]
              simp [respStatus, h1, h2, ht, hu, hres, hs]
        · have hu' : userModeOn req.username = false := by simpa using hu
          rw [hs_global env req t h1 h2 ht hu']
          simp [respStatus, h1, h2, ht, hu']
    · have h2' : truthy req.client_secret = false := by simpa using h2
      rw [hs_400 env req (Or.inr h2')]
      simp [respStatus, h2']
  · have h1' : truthy req.client_id = false := by simpa using h1
    rw [hs_400 env req (Or.inl h1')]
    simp [respStatus, h1']

theorem search_status_codes_witness :
    (∀ e, ({ witEnv with tokenOk := none } : Env).userScores = Except.error e →
        msgHasAuthFail e = false) ∧
      (respStatus (handleSearch { witEnv with tokenOk := none } witReq) = 401 ↔
        (truthy witReq.client_id = true ∧ truthy witReq.client_secret = true ∧
          ({ witEnv with tokenOk := none } : Env).tokenOk = none)) :=
  ⟨fun e he => by simp [witEnv] at he,
    (search_status_codes { witEnv with tokenOk := none } witReq
      (fun e he => by simp [witEnv] at he)).2.1⟩

lemma nonempty_batch_len {r : ApiResp} (h : ¬ (respBatch r).isEmpty = true) :
    1 ≤ (respBatch r).length := by
  rcases hb : respBatch r with _ | ⟨x, t⟩
  · rw [hb] at h
    simp at h
  · simp

lemma globalLoop_no_fuelOut (env : Env) (mp xp : JVal) (rm : Option (List String)) (tl : JVal) :
    ∀ (fuel i : ℕ) (acc : List Score) (fetched : ℕ) (cursor : Option String),
      10000 ≤ fetched + fuel →
      (globalLoop env mp xp rm tl fuel i acc fetched cursor).2 ≠ .fuelOut := by
  intro fuel
  induction fuel with
  | zero =>
    intro i acc fetched cursor hb
    rw [globalLoop]
    split
    · simp
    · split
      · simp
      · rename_i hg1 hg2
        exfalso
        simp at hg2
        omega
  | succ fuel ih =>
    intro i acc fetched cursor hb
    rw [globalLoop]
    split
    · simp
    · split
      · simp
      · split
        · simp
        · split
          · simp
          · rename_i r heq
            split
            · simp
            · split
              · simp
              · rename_i hne hcur
                apply ih
                have h1 := nonempty_batch_len hne
                omega

lemma globalLoop_fuel_irrel (env : Env) (mp xp : JVal) (rm : Option (List String)) (tl : JVal) :
    ∀ (fuel extra i : ℕ) (acc : List Score) (fetched : ℕ) (cursor : Option String),
      10000 ≤ fetched + fuel →
      globalLoop env mp xp rm tl (fuel + extra) i acc fetched cursor =
        globalLoop env mp xp rm tl fuel i acc fetched cursor := by
  intro fuel
  induction fuel with
  | zero =>
    intro extra i acc fetched cursor hb
    have hge : ¬ fetched < 10000 := by omega
    conv_lhs => rw [globalLoop]
    conv_rhs => rw [globalLoop]
    repeat' split
    all_goals rfl
  | succ fuel ih =>
    intro extra i acc fetched cursor hb
    have hstep : fuel + 1 + extra = (fuel + extra) + 1 := by omega
    rw [hstep]
    conv_lhs => rw [globalLoop]
    conv_rhs => rw [globalLoop]
    repeat' split
    all_goals
      first
        | rfl
        | (exfalso
           omega)
        | (rename_i f' hf'
           have hfe : f' = fuel + extra := by omega
           subst hfe
           apply ih
           have h1 : 1 ≤ (respBatch (env.pages i).2).length :=
             nonempty_batch_len (by assumption)
           omega)

lemma nf_mem {batch : List Score} {mp xp : JVal} {rm : Option (List String)} {r : Score}
    (h : r ∈ normalizeAndFilter batch mp xp rm) :
    (∃ s ∈ batch, r = normalizeScore s) ∧ filterPred mp xp rm r = true := by
  unfold normalizeAndFilter at h
  rw [List.mem_filter] at h
  obtain ⟨hm, hf⟩ := h
  rw [List.mem_map] at hm
  obtain ⟨s, hs, rfl⟩ := hm
  exact ⟨⟨s, hs, rfl⟩, hf⟩

lemma globalLoop_mem (env : Env) (mp xp : JVal) (rm : Option (List String)) (tl : JVal) :
    ∀ (fuel i : ℕ) (acc : List Score) (fetched : ℕ) (cursor : Option String) (r : Score),
      r ∈ (globalLoop env mp xp rm tl fuel i acc fetched cursor).1 →
      r ∈ acc ∨ ∃ j s, s ∈ respBatch (env.pages j).2 ∧ r = normalizeScore s ∧
        filterPred mp xp rm r = true := by
  intro fuel
  induction fuel with
  | zero =>
    intro i acc fetched cursor r hr
    rw [globalLoop] at hr
    repeat' split at hr
    all_goals
      first
        | exact Or.inl hr
        | (rcases List.mem_append.mp hr with h | h
           · exact Or.inl h
           · obtain ⟨⟨s, hs, rfl⟩, hf⟩ := nf_mem h
             exact Or.inr ⟨i, s, hs, rfl, hf⟩)
        | (exfalso
           omega)
  | succ fuel ih =>
    intro i acc fetched cursor r hr
    rw [globalLoop] at hr
    repeat' split at hr
    all_goals
      first
        | exact Or.inl hr
        | (rcases List.mem_append.mp hr with h | h
           · exact Or.inl h
           · obtain ⟨⟨s, hs, rfl⟩, hf⟩ := nf_mem h
             exact Or.inr ⟨i, s, hs, rfl, hf⟩)
        | (exfalso
           omega)
        | (rename_i f' hf'
           have hffe : f' = fuel := by omega
           subst hffe
           rcases ih _ _ _ _ _ hr with h | h
           · rcases List.mem_append.mp h with h2 | h2
             · exact Or.inl h2
             · obtain ⟨⟨s, hs, rfl⟩, hf⟩ := nf_mem h2
               exact Or.inr ⟨i, s, hs, rfl, hf⟩
           · exact Or.inr h)

/-- The creation timestamp a record sorts by (0 for an absent one; the
sortedness statements only use it on records whose timestamp is present). -/
def dval (s : Score) : ℤ := s.created_at.getD 0

lemma sortLe_iff {a b : Score} (ha : a.created_at.isSome = true)
    (hb : b.created_at.isSome = true) :
    sortLe a b = true ↔ dval b ≤ dval a := by
  obtain ⟨ta, hta⟩ := Option.isSome_iff_exists.mp ha
  obtain ⟨tb, htb⟩ := Option.isSome_iff_exists.mp hb
  simp [sortLe, scoreCmp, dval, hta, htb]

lemma mem_ordInsert {x y : Score} {l : List Score} :
    y ∈ ordInsert x l ↔ y = x ∨ y ∈ l := by
  induction l with
  | nil => simp [ordInsert]
  | cons a t ih =>
    unfold ordInsert
    split
    · simp [List.mem_cons]
    · simp [List.mem_cons, ih]
      tauto

lemma mem_jsSort {y : Score} {l : List Score} : y ∈ jsSort l ↔ y ∈ l := by
  induction l with
  | nil => simp [jsSort]
  | cons a t ih =>
    simp [jsSort, mem_ordInsert, ih]

lemma ordInsert_sorted (x : Score) (l : List Score)
    (hx : x.created_at.isSome = true) (hl : ∀ y ∈ l, y.created_at.isSome = true)
    (hs : l.Pairwise fun a b => dval b ≤ dval a) :
    (ordInsert x l).Pairwise fun a b => dval b ≤ dval a := by
  induction l with
  | nil => simp [ordInsert]
  | cons a t ih =>
    unfold ordInsert
    split
    · rename_i hle
      have hax : dval a ≤ dval x := (sortLe_iff hx (hl a (List.mem_cons_self a t))).mp hle
      rw [List.pairwise_cons]
      refine ⟨?_, hs⟩
      intro y hy
      rcases List.mem_cons.mp hy with rfl | hyt
      · exact hax
      · exact le_trans ((List.pairwise_cons.mp hs).1 y hyt) hax
    · rename_i hle
      have hxa : dval x < dval a := by
        rcases lt_or_ge (dval x) (dval a) with h | h
        · exact h
        · exact absurd ((sortLe_iff hx (hl a (List.mem_cons_self a t))).mpr h) hle
      obtain ⟨hhead, htail⟩ := List.pairwise_cons.mp hs
      rw [List.pairwise_cons]
      constructor
      · intro y hy
        rcases mem_ordInsert.mp hy with rfl | hyt
        · exact le_of_lt hxa
        · exact hhead y hyt
      · exact ih (fun y hy => hl y (List.mem_cons_of_mem a hy)) htail

lemma jsSort_sorted (l : List Score) (hl : ∀ y ∈ l, y.created_at.isSome = true) :
    (jsSort l).Pairwise fun a b => dval b ≤ dval a := by
  induction l with
  | nil => simp [jsSort]
  | cons a t ih =>
    show (ordInsert a (jsSort t)).Pairwise fun a b => dval b ≤ dval a
    apply ordInsert_sorted a (jsSort t) (hl a (List.mem_cons_self a t))
    · intro y hy
      exact hl y (List.mem_cons_of_mem a (mem_jsSort.mp hy))
    · exact ih fun y hy => hl y (List.mem_cons_of_mem a hy)

lemma filterPred_props {mp xp : ℚ} {rm : List String} {r : Score} {q : ℚ}
    (hmp : mp ≠ 0) (hxp : xp ≠ 0) (hpq : r.pp = JVal.num q)
    (hf : filterPred (.num mp) (.num xp) (some rm) r = true) :
    mp ≤ q ∧ q ≤ xp ∧ ∀ m ∈ rm, modsInclude r.mods m = true := by
  unfold filterPred at hf
  split at hf
  · exact absurd hf (by simp)
  · split at hf
    · exact absurd hf (by simp)
    · rename_i hA hB
      have h1 : mp ≤ q := by
        by_contra hc
        push_neg at hc
        exact hA ⟨truthy_num_ne hmp, by rw [hpq]; simpa [jlt, parseFloatJ] using hc⟩
      have h2 : q ≤ xp := by
        by_contra hc
        push_neg at hc
        exact hB ⟨truthy_num_ne hxp, by rw [hpq]; simpa [jgt, jlt, parseFloatJ] using hc⟩
      refine ⟨h1, h2, ?_⟩
      have hf2 : (if 0 < rm.length then rm.all (fun m => modsInclude r.mods m) else true)
          = true := hf
      intro m hm
      rcases Nat.eq_zero_or_pos rm.length with h0 | hpos
      · rw [List.length_eq_zero] at h0
        subst h0
        simp at hm
      · rw [if_pos hpos] at hf2
        exact List.all_eq_true.mp hf2 m hm

lemma effLimit_natCast (n : ℕ) (hn : n ≠ 0) : effLimit (.num (n : ℚ)) = .num (n : ℚ) := by
  unfold effLimit
  rw [if_pos (truthy_num_ne (by exact_mod_cast hn))]
  simp [parseIntJ, jsTrunc_natCast]

lemma dval_enrich (fb : List Beatmap) (fu : List OsuUser) (s : Score) :
    dval (enrichScore fb fu s) = dval s := by
  unfold dval
  rw [enrichScore_created]

/-- C1.  A global-mode search (no username) with truthy numeric `min_pp`,
`max_pp`, a required mod list and a positive integer `limit`, over any
remote feed whose records normalise to numeric `pp` and a present creation
timestamp, returns a 200 payload in which every record's `pp` lies in
`[min_pp, max_pp]`, every record's mod list contains all required mods, the
sequence is sorted by `created_at` descending, and at most `limit` records
are returned. -/
theorem search_global_filters_sorts_truncates
    (env : Env) (req : Req) (t : String) (a b : ℚ) (rm : List String) (n : ℕ)
    (h1 : truthy req.client_id = true) (h2 : truthy req.client_secret = true)
    (ht : env.tokenOk = some t) (hun : req.username = none)
    (hmin : req.min_pp = .num a) (ha : a ≠ 0)
    (hmax : req.max_pp = .num b) (hb : b ≠ 0)
    (hmods : req.mods = some rm)
    (hlim : req.limit = .num (n : ℚ)) (hn : n ≠ 0)
    (hwf : ∀ i s, s ∈ respBatch (env.pages i).2 →
      (∃ q, (normalizeScore s).pp = JVal.num q) ∧
        (normalizeScore s).created_at.isSome = true) :
    ∃ l, handleSearch env req = .ok l ∧
      l.length ≤ n ∧
      (l.Pairwise fun x y => dval y ≤ dval x) ∧
      ∀ r ∈ l, (∃ q, r.pp = JVal.num q ∧ a ≤ q ∧ q ≤ b) ∧
        ∀ m ∈ rm, modsInclude r.mods m = true := by
  have hu : userModeOn req.username = false := by
    rw [hun]
    rfl
  have hglob := hs_global env req t h1 h2 ht hu
  have heff : effLimit req.limit = .num (n : ℚ) := by
    rw [hlim]
    exact effLimit_natCast n hn
  set L := (globalLoop env req.min_pp req.max_pp req.mods (effLimit req.limit)
    10000 0 [] 0 none).1 with hL
  have hmem : ∀ r ∈ L, ((∃ q, r.pp = JVal.num q ∧ a ≤ q ∧ q ≤ b) ∧
      (∀ m ∈ rm, modsInclude r.mods m = true)) ∧ r.created_at.isSome = true := by
    intro r hr
    rcases globalLoop_mem env req.min_pp req.max_pp req.mods (effLimit req.limit)
        10000 0 [] 0 none r hr with habs | ⟨j, s, hs, rfl, hf⟩
    · simp at habs
    · obtain ⟨⟨q, hq⟩, hdate⟩ := hwf j s hs
      rw [hmin, hmax, hmods] at hf
      obtain ⟨hlo, hhi, hmods'⟩ := filterPred_props ha hb hq hf
      exact ⟨⟨⟨q, hq, hlo, hhi⟩, hmods'⟩, hdate⟩
  obtain ⟨fb, fu, hfin⟩ := finishScores_eq_map env (effLimit req.limit) L
  refine ⟨finishScores env (effLimit req.limit) L, hglob, ?_, ?_, ?_⟩
  · rw [finishScores_length, heff]
    rw [finalList_num_nat n L]
    exact List.length_take_le n (jsSort L)
  · rw [hfin, heff, finalList_num_nat n L]
    rw [List.pairwise_map]
    have hsorted : (jsSort L).Pairwise fun x y => dval y ≤ dval x :=
      jsSort_sorted L fun y hy => (hmem y hy).2
    have htake : ((jsSort L).take n).Pairwise fun x y => dval y ≤ dval x :=
      hsorted.sublist (List.take_sublist n (jsSort L))
    exact htake.imp fun hxy => by
      rw [dval_enrich, dval_enrich]
      exact hxy
  · intro r hr
    rw [hfin, heff, finalList_num_nat n L] at hr
    rw [List.mem_map] at hr
    obtain ⟨r₀, hr₀, rfl⟩ := hr
    have hmemL : r₀ ∈ L := mem_jsSort.mp (List.mem_of_mem_take hr₀)
    obtain ⟨⟨⟨q, hq, hlo, hhi⟩, hmods'⟩, _⟩ := hmem r₀ hmemL
    refine ⟨⟨q, ?_, hlo, hhi⟩, ?_⟩
    · rw [enrichScore_pp]
      exact hq
    · intro m hm
      rw [enrichScore_mods]
      exact hmods' m hm

theorem search_global_filters_sorts_truncates_witness :
    (truthy witReq.client_id = true) ∧ (witEnv.tokenOk = some "t") ∧
      ∃ l, handleSearch witEnv witReq = .ok l ∧ l.length ≤ 1 ∧
        (l.Pairwise fun x y => dval y ≤ dval x) ∧
        ∀ r ∈ l, (∃ q, r.pp = JVal.num q ∧ 200 ≤ q ∧ q ≤ 300) ∧
          ∀ m ∈ ["HD", "DT"], modsInclude r.mods m = true :=
  ⟨by decide, rfl,
    search_global_filters_sorts_truncates witEnv witReq "t" 200 300 ["HD", "DT"] 1
      (by decide) (by decide) rfl rfl rfl (by norm_num) rfl (by norm_num) rfl
      (by norm_num [witReq]) (by decide)
      (fun i s hs => by
        have hs' : s = { sampleScore with beatmap := none, user := none } := by
          simpa [witEnv, respBatch] using hs
        subst hs'
        exact ⟨⟨250, by decide⟩, by decide⟩)⟩

/-- C2.  The global-mode loop always terminates: with the handler's fuel
allowance it never exhausts fuel (every continuing iteration adds at least
one fetched record toward the 10000-record ceiling, and each iteration
re-checks the accumulated-match count, the ceiling and the 25 s budget
before fetching), the result is stable under any extra fuel, and whatever
stop fired — budget and ceiling included — the handler returns the partial
accumulated result as a normal 200 response, not an error. -/
theorem global_loop_terminates_returns_ok (env : Env) (req : Req) (t : String)
    (h1 : truthy req.client_id = true) (h2 : truthy req.client_secret = true)
    (ht : env.tokenOk = some t) (hu : userModeOn req.username = false) :
    ((globalLoop env req.min_pp req.max_pp req.mods (effLimit req.limit)
        10000 0 [] 0 none).2 ≠ .fuelOut) ∧
    (∀ extra, globalLoop env req.min_pp req.max_pp req.mods (effLimit req.limit)
        (10000 + extra) 0 [] 0 none =
      globalLoop env req.min_pp req.max_pp req.mods (effLimit req.limit)
        10000 0 [] 0 none) ∧
    handleSearch env req = .ok (finishScores env (effLimit req.limit)
      (globalLoop env req.min_pp req.max_pp req.mods (effLimit req.limit)
        10000 0 [] 0 none).1) :=
  ⟨globalLoop_no_fuelOut env req.min_pp req.max_pp req.mods (effLimit req.limit)
      10000 0 [] 0 none (by omega),
    fun extra => globalLoop_fuel_irrel env req.min_pp req.max_pp req.mods
      (effLimit req.limit) 10000 extra 0 [] 0 none (by omega),
    hs_global env req t h1 h2 ht hu⟩

theorem global_loop_terminates_returns_ok_witness :
    (witEnv.tokenOk = some "t") ∧ (userModeOn witReq.username = false) ∧
      (((globalLoop witEnv witReq.min_pp witReq.max_pp witReq.mods (effLimit witReq.limit)
          10000 0 [] 0 none).2 ≠ .fuelOut) ∧
        (∀ extra, globalLoop witEnv witReq.min_pp witReq.max_pp witReq.mods
            (effLimit witReq.limit) (10000 + extra) 0 [] 0 none =
          globalLoop witEnv witReq.min_pp witReq.max_pp witReq.mods
            (effLimit witReq.limit) 10000 0 [] 0 none) ∧
        handleSearch witEnv witReq = .ok (finishScores witEnv (effLimit witReq.limit)
          (globalLoop witEnv witReq.min_pp witReq.max_pp witReq.mods
            (effLimit witReq.limit) 10000 0 [] 0 none).1)) :=
  ⟨rfl, rfl,
    global_loop_terminates_returns_ok witEnv witReq "t" (by decide) (by decide) rfl rfl⟩
